import Mathlib

/-!
Verification of the fencat FEN-viewer core (src/main.rs) against its
natural-language specification.

The Rust program is embedded shallowly:

* the validation / capture regex
  `([rnbqkpRNBQKP1-8]+\/){7}([rnbqkpRNBQKP1-8]+)\s*([bw])?` is embedded as a
  deterministic matcher (`matchFenAt`, `findFen`): since `/` is not in the
  character class, the greedy `+` repetitions admit exactly one parse at any
  starting position, and the engine's leftmost-first search is `findFen`;
* `split_fen` is embedded directly (first whitespace-separated token, split on
  `/`, first 8 groups);
* `chessify` is embedded as `chessifyAux`, which returns the list of string
  chunks pushed onto the output in order; the rendered row is their
  concatenation (`chessify`);
* the printing loops of `main` are embedded as `renderLines`.

Rust's `char::is_whitespace` is modelled as `Char.isWhitespace`. The loop of
`chessify` branches on `char::is_numeric` and calls `to_digit(10).unwrap()`,
which panics on numeric characters outside the ASCII digits; that abort path
is embedded explicitly by `chessifyAuxChecked` (over `is_numeric` and
`to_digit10` below), and `chessifyAux` is its total restriction, proved equal
to it (`chessifyAuxChecked_eq`) on every input whose characters have
`is_numeric` agreeing with `Char.isDigit` — in particular on all ASCII input,
which covers every rank token over the FEN alphabet.
-/

namespace Fencat

/-- ANSI background for dark squares (source constant `BACKGROUND_DARK`). -/
def BACKGROUND_DARK : String := "\x1b[48;5;246m"

/-- ANSI background for light squares (source constant `BACKGROUND_LIGHT`). -/
def BACKGROUND_LIGHT : String := "\x1b[48;5;249m"

/-- ANSI style reset (source constant `RESET_COLOR`). -/
def RESET_COLOR : String := "\x1b[0m"

/-- The character class `[rnbqkpRNBQKP1-8]` of the source regex `FEN_REGEX`. -/
def isFenChar (c : Char) : Bool :=
  c = 'r' || c = 'n' || c = 'b' || c = 'q' || c = 'k' || c = 'p' ||
  c = 'R' || c = 'N' || c = 'B' || c = 'Q' || c = 'K' || c = 'P' ||
  ('1' ≤ c && c ≤ '8')

/-- Consume `k` repetitions of `[rnbqkpRNBQKP1-8]+ '/'` (the `{7}`-repeated
group of `FEN_REGEX`); since `/` is outside the class the greedy repetition is
forced, so this is the unique possible parse. Returns the remaining input. -/
def matchGroups : Nat → List Char → Option (List Char)
  | 0, cs => some cs
  | k + 1, cs =>
    let run := cs.takeWhile isFenChar
    let rest := cs.dropWhile isFenChar
    if run.isEmpty then none
    else
      match rest with
      | '/' :: rest2 => matchGroups k rest2
      | _ => none

/-- Attempt to match `FEN_REGEX` at the start of the input: seven
slash-terminated groups, a final group, then `\s*` and the optional capture
group `([bw])?`. Returns `some capture3` on a match (`capture3` is the
optional colour token, regex capture group 3), `none` otherwise. -/
def matchFenAt (cs : List Char) : Option (Option Char) :=
  match matchGroups 7 cs with
  | none => none
  | some rest =>
    let run := rest.takeWhile isFenChar
    let rest2 := rest.dropWhile isFenChar
    if run.isEmpty then none
    else
      match rest2.dropWhile (fun c => c.isWhitespace) with
      | c :: _ => if c = 'b' || c = 'w' then some (some c) else some none
      | [] => some none

/-- Leftmost-first search of `FEN_REGEX` over the input, as performed by
`Regex::is_match` / `Regex::captures` in `main`. -/
def findFen : List Char → Option (Option Char)
  | [] => none
  | c :: cs =>
    match matchFenAt (c :: cs) with
    | some cap => some cap
    | none => findFen cs

/-- `Regex::is_match(FEN_REGEX, s)`. -/
def fenMatch (s : String) : Bool := (findFen s.toList).isSome

/-- The error test of `main`:
`fen.is_empty() || !Regex::is_match(&FEN_REGEX, fen)`; when true the program
prints the error and usage text and exits with status 1, rendering no board. -/
def programRejects (s : String) : Bool := s.toList.isEmpty || !(fenMatch s)

/-- The `active_color` computation of `main`: capture group 3 of the first
regex match, mapped `w` to `White`, `b` to `Black`, absent to `Unknown`. -/
def activeColor (s : String) : String :=
  match findFen s.toList with
  | some (some 'w') => "White"
  | some (some 'b') => "Black"
  | some _ => "Unknown"
  | none => "Unknown"

/-- First token of `fen.split_whitespace()` (empty when there is none), as
used by `split_fen`'s `.split_whitespace().take(1)...join("")`. -/
def firstToken (cs : List Char) : List Char :=
  (cs.dropWhile (fun c => c.isWhitespace)).takeWhile (fun c => !c.isWhitespace)

/-- Rust `str::split('/')`: splits into groups around every `/`, keeping empty
groups; the empty string yields one empty group. -/
def splitSlash : List Char → List (List Char)
  | [] => [[]]
  | c :: cs =>
    if c = '/' then [] :: splitSlash cs
    else
      match splitSlash cs with
      | [] => [[c]]
      | g :: gs => (c :: g) :: gs

/-- Source function `split_fen`: take the first whitespace-separated token of
the input, split it on `/`, and keep the first 8 groups. -/
def split_fen (s : String) : List String :=
  ((splitSlash (firstToken s.toList)).take 8).map (fun cs => String.mk cs)

/-- Rust `char::to_digit(10).unwrap()` on an ASCII digit. -/
def digitVal (c : Char) : Nat := c.toNat - '0'.toNat

/-- Background colour for square counter value `n`
(source: `match square_counter % 2 { 0 => BACKGROUND_DARK, _ => BACKGROUND_LIGHT }`). -/
def bgOfParity (n : Nat) : String :=
  match n % 2 with
  | 0 => BACKGROUND_DARK
  | _ => BACKGROUND_LIGHT

/-- The string pushed for one piece character (the `match character` table of
`chessify`); the default arm pushes a single blank. -/
def pieceStr (c : Char) : String :=
  match c with
  | 'r' => "\x1b[38;5;0m ♜ "
  | 'n' => "\x1b[38;5;0m ♞ "
  | 'b' => "\x1b[38;5;0m ♝ "
  | 'q' => "\x1b[38;5;0m ♛ "
  | 'k' => "\x1b[38;5;0m ♚ "
  | 'p' => "\x1b[38;5;0m ♟︎ "
  | 'R' => "\x1b[38;5;231m ♜ "
  | 'N' => "\x1b[38;5;231m ♞ "
  | 'B' => "\x1b[38;5;231m ♝ "
  | 'Q' => "\x1b[38;5;231m ♛ "
  | 'K' => "\x1b[38;5;231m ♚ "
  | 'P' => "\x1b[38;5;231m ♟︎ "
  | _ => " "

/-- Chunks pushed by the inner `for _ in 0..empty_square_count` loop of
`chessify`: for each empty square the counter is incremented, then the
background code and a three-space cell are pushed. -/
def emptyChunks : Nat → Nat → List String
  | 0, _ => []
  | n + 1, k => bgOfParity (k + 1) :: "   " :: emptyChunks n (k + 1)

/-- The main loop of `chessify`, as the ordered list of string chunks pushed
onto `chessified_line`; `k` is the running `square_counter`. After each input
character's chunks, one `RESET_COLOR` is pushed. This total function branches
on `Char.isDigit`; it agrees with the exact abort-aware embedding
`chessifyAuxChecked` on every input whose characters have `is_numeric`
agreeing with `Char.isDigit` (all ASCII input — see `chessifyAuxChecked_eq`). -/
def chessifyAux : List Char → Nat → List String
  | [], _ => []
  | c :: cs, k =>
    if c.isDigit then
      emptyChunks (digitVal c) k ++ [RESET_COLOR] ++ chessifyAux cs (k + digitVal c)
    else
      bgOfParity (k + 1) :: pieceStr c :: RESET_COLOR :: chessifyAux cs (k + 1)

/-- Source function `chessify`: the rendered row string for one rank token. -/
def chessify (line : String) (even reversed : Bool) : String :=
  let start : Nat := if even then 0 else 1
  let ordered : List Char := if reversed then line.toList.reverse else line.toList
  String.join (chessifyAux ordered start)

/-- One printed body row, `println!("{} {} {}", label, chessify(..), label)`. -/
def bodyRow (label : Nat) (line : String) (even reversed : Bool) : String :=
  toString label ++ " " ++ chessify line even reversed ++ " " ++ toString label

/-- The body row printed for one `enumerate()` pair, in either branch of the
orientation `if` in `main`. -/
def bodyRowP (flip : Bool) (p : Nat × String) : String :=
  if flip then bodyRow (p.fst + 1) p.snd (p.fst % 2 == 0) true
  else bodyRow (8 - p.fst) p.snd (p.fst % 2 == 0) false

/-- The board-printing section of `main`: header line, one body row per
element of `board_lines` (reversed first when flipped), footer line. -/
def renderLines (boardLines : List String) (flip : Bool) : List String :=
  if flip then
    "   h  g  f  e  d  c  b  a"
      :: (boardLines.reverse.enum.map (bodyRowP true))
      ++ ["   h  g  f  e  d  c  b  a"]
  else
    "   a  b  c  d  e  f  g  h"
      :: (boardLines.enum.map (bodyRowP false))
      ++ ["   a  b  c  d  e  f  g  h"]

/-! ### Abstractions of the chunk stream, each tied to `chessifyAux` by a
proved filter equation. -/

/-- Recognise a background-colour chunk. -/
def isBgChunk (s : String) : Bool := s == BACKGROUND_DARK || s == BACKGROUND_LIGHT

/-- Recognise a square-content chunk (glyph or empty cell): anything that is
neither a background code nor the reset. -/
def isContentChunk (s : String) : Bool :=
  !(s == BACKGROUND_DARK || s == BACKGROUND_LIGHT || s == RESET_COLOR)

/-- The background codes of the squares of one rank token, in order, with
running counter `k` (the per-square colouring discipline of `chessify`). -/
def squareColors : List Char → Nat → List String
  | [], _ => []
  | c :: cs, k =>
    if c.isDigit then
      ((List.range (digitVal c)).map (fun j => bgOfParity (k + j + 1)))
        ++ squareColors cs (k + digitVal c)
    else bgOfParity (k + 1) :: squareColors cs (k + 1)

/-- The background codes of the row for one rank token, read off the actual
chunk stream of `chessifyAux` exactly as `chessify` would emit it. -/
def rowBg (line : String) (even reversed : Bool) : List String :=
  let start : Nat := if even then 0 else 1
  let ordered : List Char := if reversed then line.toList.reverse else line.toList
  (chessifyAux ordered start).filter isBgChunk

/-- The square cells produced for one input character: a digit `d` yields `d`
empty cells, any other character yields its `pieceStr` cell. Like
`chessifyAux`, this is faithful on characters where `is_numeric` agrees with
`Char.isDigit` (all of ASCII); the abort on other numeric characters is
captured by `chessifyAuxChecked`. -/
def squaresOfChar (c : Char) : List String :=
  if c.isDigit then List.replicate (digitVal c) "   " else [pieceStr c]

/-- The decoded square-cell sequence of a rank token. -/
def decodeRank (cs : List Char) : List String := (cs.map squaresOfChar).flatten

/-- Display width contributed by one rank-token character. -/
def charWidth (c : Char) : Nat := if c.isDigit then digitVal c else 1

/-- Total number of squares a rank token decodes to. -/
def rankWidth (cs : List Char) : Nat := (cs.map charWidth).sum

/-- The twelve FEN piece letters. -/
def pieceLetters : List Char :=
  ['r', 'n', 'b', 'q', 'k', 'p', 'R', 'N', 'B', 'Q', 'K', 'P']

/-- The FEN digits `1`-`8`. -/
def fenDigits : List Char := ['1', '2', '3', '4', '5', '6', '7', '8']

/-- Scenario inputs. -/
def stdFen : String := "rnbqkbnr/pppppppp/8/8/8/8/PPPPPPPP/RNBQKBNR"

/-- The standard board's rank tokens, as produced by `split_fen stdFen`. -/
def stdBoard : List String :=
  ["rnbqkbnr", "pppppppp", "8", "8", "8", "8", "PPPPPPPP", "RNBQKBNR"]

/-- Scenario 3 input: garbage before the placement, junk after it. -/
def garbageInput : String :=
  "garbage rnbqkbnr/pppppppp/8/8/8/8/PPPPPPPP/RNBQKBNR w trailing-junk"

/-- Scenario 5 input: third rank token is the out-of-alphabet digit `9`. -/
def nineInput : String := "rnbqkbnr/pppppppp/9/8/8/8/PPPPPPPP/RNBQKBNR"

/-- Rust `char::is_numeric`: true on the Unicode `Number` categories. The full
category tables live in the Rust standard library, outside this repository;
embedded here is the fragment this development needs: the ASCII digits
`0`-`9` together with the Arabic-Indic digits `٠`-`٩` (U+0660-U+0669), which
are category `Nd` and hence numeric in Rust, while `to_digit(10)` rejects
them. -/
def is_numeric (c : Char) : Bool :=
  c.isDigit || ('٠' ≤ c && c ≤ '٩')

/-- Rust `char::to_digit(10)`: `Some` of the digit value exactly on the ASCII
digits `0`-`9`, `None` on every other character (including non-ASCII Unicode
numerics). -/
def to_digit10 (c : Char) : Option Nat :=
  if c.isDigit then some (c.toNat - '0'.toNat) else none

/-- The main loop of `chessify` with the abort path embedded exactly: the
source branches on `character.is_numeric()` and calls
`character.to_digit(10).unwrap()`, which panics when `to_digit(10)` is `None`
— reachable for numeric characters outside the ASCII digits. `none` models
that panic; the panic propagates, so no further chunks are produced. -/
def chessifyAuxChecked : List Char → Nat → Option (List String)
  | [], _ => some []
  | c :: cs, k =>
    if is_numeric c then
      match to_digit10 c with
      | some d =>
        match chessifyAuxChecked cs (k + d) with
        | some rest => some (emptyChunks d k ++ [RESET_COLOR] ++ rest)
        | none => none
      | none => none
    else
      match chessifyAuxChecked cs (k + 1) with
      | some rest => some (bgOfParity (k + 1) :: pieceStr c :: RESET_COLOR :: rest)
      | none => none

/-- An input on which the decoder panics: validation passes (the regex matches
the `8/8/8/8/8/8/8/8` part), but `split_fen` hands the first
whitespace-separated token — the Arabic-Indic digit `٣` (U+0663) — to
`chessify`, which aborts on `to_digit(10).unwrap()`. -/
def numericInput : String := "٣ 8/8/8/8/8/8/8/8"

/-! ### Helper lemmas -/

theorem bgOfParity_congr {a b : Nat} (h : a % 2 = b % 2) :
    bgOfParity a = bgOfParity b := by
  unfold bgOfParity
  rw [h]

theorem bgOfParity_zero {n : Nat} (h : n % 2 = 0) :
    bgOfParity n = BACKGROUND_DARK := by
  unfold bgOfParity
  rw [h]

theorem bgOfParity_one {n : Nat} (h : n % 2 = 1) :
    bgOfParity n = BACKGROUND_LIGHT := by
  unfold bgOfParity
  rw [h]

theorem isBgChunk_bgOfParity (n : Nat) : isBgChunk (bgOfParity n) = true := by
  rcases Nat.mod_two_eq_zero_or_one n with h | h
  · rw [bgOfParity_zero h]; decide
  · rw [bgOfParity_one h]; decide

theorem isBgChunk_pieceStr (c : Char) : isBgChunk (pieceStr c) = false := by
  unfold pieceStr
  split <;> decide

theorem isContentChunk_bgOfParity (n : Nat) :
    isContentChunk (bgOfParity n) = false := by
  rcases Nat.mod_two_eq_zero_or_one n with h | h
  · rw [bgOfParity_zero h]; decide
  · rw [bgOfParity_one h]; decide

theorem isContentChunk_pieceStr (c : Char) :
    isContentChunk (pieceStr c) = true := by
  unfold pieceStr
  split <;> decide

theorem emptyChunks_filter_bg (n k : Nat) :
    (emptyChunks n k).filter isBgChunk
      = (List.range n).map (fun j => bgOfParity (k + j + 1)) := by
  induction n generalizing k with
  | zero => rfl
  | succ n ih =>
    rw [emptyChunks, List.range_succ_eq_map]
    rw [List.filter_cons_of_pos (by simp [isBgChunk_bgOfParity])]
    rw [List.filter_cons_of_neg (by decide)]
    rw [ih (k + 1), List.map_cons, List.map_map]
    refine congrArg₂ List.cons rfl ?_
    refine List.map_congr_left (fun j hj => ?_)
    show bgOfParity (k + 1 + j + 1) = bgOfParity (k + (j + 1) + 1)
    exact bgOfParity_congr (by omega)

theorem emptyChunks_filter_content (n k : Nat) :
    (emptyChunks n k).filter isContentChunk = List.replicate n "   " := by
  induction n generalizing k with
  | zero => rfl
  | succ n ih =>
    rw [emptyChunks]
    rw [List.filter_cons_of_neg (by simp [isContentChunk_bgOfParity])]
    rw [List.filter_cons_of_pos (by decide)]
    rw [ih (k + 1), List.replicate_succ]

theorem chessifyAux_filter_bg (cs : List Char) (k : Nat) :
    (chessifyAux cs k).filter isBgChunk = squareColors cs k := by
  induction cs generalizing k with
  | nil => rfl
  | cons c cs ih =>
    rw [chessifyAux, squareColors]
    by_cases hc : c.isDigit
    · rw [if_pos hc, if_pos hc, List.filter_append, List.filter_append,
        emptyChunks_filter_bg, ih]
      rw [show (List.filter isBgChunk [RESET_COLOR]) = [] from by decide]
      simp
    · rw [if_neg hc, if_neg hc]
      rw [List.filter_cons_of_pos (by simp [isBgChunk_bgOfParity])]
      rw [List.filter_cons_of_neg (by simp [isBgChunk_pieceStr])]
      rw [List.filter_cons_of_neg (by decide)]
      rw [ih]

theorem chessifyAux_filter_content (cs : List Char) (k : Nat) :
    (chessifyAux cs k).filter isContentChunk = decodeRank cs := by
  induction cs generalizing k with
  | nil => rfl
  | cons c cs ih =>
    rw [chessifyAux, decodeRank, List.map_cons, List.flatten_cons]
    by_cases hc : c.isDigit
    · rw [if_pos hc, List.filter_append, List.filter_append,
        emptyChunks_filter_content, ih]
      rw [show (List.filter isContentChunk [RESET_COLOR]) = [] from by decide]
      simp [squaresOfChar, hc, decodeRank]
    · rw [if_neg hc]
      rw [List.filter_cons_of_neg (by simp [isContentChunk_bgOfParity])]
      rw [List.filter_cons_of_pos (by simp [isContentChunk_pieceStr])]
      rw [List.filter_cons_of_neg (by decide)]
      rw [ih]
      simp [squaresOfChar, hc, decodeRank]

theorem squareColors_eq (cs : List Char) (k : Nat) :
    squareColors cs k
      = (List.range (rankWidth cs)).map (fun j => bgOfParity (k + j + 1)) := by
  induction cs generalizing k with
  | nil => rfl
  | cons c cs ih =>
    rw [squareColors, show rankWidth (c :: cs) = charWidth c + rankWidth cs from by
      simp [rankWidth, charWidth]]
    rw [List.range_add, List.map_append, List.map_map]
    by_cases hc : c.isDigit
    · rw [if_pos hc, ih, show charWidth c = digitVal c from by simp [charWidth, hc]]
      refine congrArg₂ _ rfl ?_
      refine List.map_congr_left (fun j hj => ?_)
      show bgOfParity (k + digitVal c + j + 1) = bgOfParity (k + (digitVal c + j) + 1)
      exact bgOfParity_congr (by omega)
    · rw [if_neg hc, ih, show charWidth c = 1 from by simp [charWidth, hc]]
      rw [show List.range 1 = [0] from rfl, List.map_cons, List.map_nil,
        List.singleton_append]
      refine congrArg₂ _ rfl ?_
      refine List.map_congr_left (fun j hj => ?_)
      show bgOfParity (k + 1 + j + 1) = bgOfParity (k + (1 + j) + 1)
      exact bgOfParity_congr (by omega)

theorem rankWidth_reverse (cs : List Char) :
    rankWidth cs.reverse = rankWidth cs := by
  unfold rankWidth
  rw [List.map_reverse, List.sum_reverse]

theorem decodeRank_length (cs : List Char) :
    (decodeRank cs).length = rankWidth cs := by
  induction cs with
  | nil => rfl
  | cons c cs ih =>
    rw [decodeRank, List.map_cons, List.flatten_cons, List.length_append]
    rw [show ((cs.map squaresOfChar).flatten).length = rankWidth cs from ih]
    rw [show rankWidth (c :: cs) = charWidth c + rankWidth cs from by
      simp [rankWidth, charWidth]]
    unfold squaresOfChar charWidth
    by_cases hc : c.isDigit
    · rw [if_pos hc, if_pos hc, List.length_replicate]
    · rw [if_neg hc, if_neg hc, List.length_singleton]

theorem squaresOfChar_reverse (c : Char) :
    (squaresOfChar c).reverse = squaresOfChar c := by
  unfold squaresOfChar
  by_cases hc : c.isDigit
  · rw [if_pos hc, List.reverse_replicate]
  · rw [if_neg hc]
    rfl

theorem decodeRank_reverse (cs : List Char) :
    decodeRank cs.reverse = (decodeRank cs).reverse := by
  induction cs with
  | nil => rfl
  | cons c cs ih =>
    rw [List.reverse_cons]
    calc decodeRank (cs.reverse ++ [c])
        = decodeRank cs.reverse ++ decodeRank [c] := by
          simp [decodeRank, List.map_append, List.flatten_append]
      _ = (decodeRank cs).reverse ++ squaresOfChar c := by
          rw [ih]
          simp [decodeRank]
      _ = (decodeRank cs).reverse ++ (squaresOfChar c).reverse := by
          rw [squaresOfChar_reverse]
      _ = (squaresOfChar c ++ decodeRank cs).reverse := by
          rw [List.reverse_append]
      _ = (decodeRank (c :: cs)).reverse := by
          simp [decodeRank]

theorem chessifyAuxChecked_eq : ∀ (cs : List Char) (k : Nat),
    (∀ c ∈ cs, is_numeric c = c.isDigit) →
    chessifyAuxChecked cs k = some (chessifyAux cs k) := by
  intro cs
  induction cs with
  | nil =>
    intro k _
    rfl
  | cons c cs ih =>
    intro k h
    have hc : is_numeric c = c.isDigit := h c (by simp)
    have hcs : ∀ x ∈ cs, is_numeric x = x.isDigit := fun x hx => h x (by simp [hx])
    rw [chessifyAuxChecked, chessifyAux, hc, to_digit10]
    by_cases hd : c.isDigit
    · simp [hd, ih _ hcs, digitVal]
    · simp [hd, ih _ hcs]

theorem bgOfParity_ne_reset (n : Nat) : (bgOfParity n == RESET_COLOR) = false := by
  rcases Nat.mod_two_eq_zero_or_one n with h | h
  · rw [bgOfParity_zero h]; decide
  · rw [bgOfParity_one h]; decide

theorem pieceStr_ne_reset (c : Char) : (pieceStr c == RESET_COLOR) = false := by
  unfold pieceStr
  split <;> decide

theorem emptyChunks_count_reset (n k : Nat) :
    (emptyChunks n k).count RESET_COLOR = 0 := by
  induction n generalizing k with
  | zero => rfl
  | succ n ih =>
    rw [emptyChunks, List.count_cons, List.count_cons, ih (k + 1)]
    rw [bgOfParity_ne_reset]
    decide

theorem chessifyAux_count_reset (cs : List Char) (k : Nat) :
    (chessifyAux cs k).count RESET_COLOR = cs.length := by
  induction cs generalizing k with
  | nil => rfl
  | cons c cs ih =>
    rw [chessifyAux, List.length_cons]
    by_cases hc : c.isDigit
    · rw [if_pos hc, List.count_append, List.count_append, ih,
        emptyChunks_count_reset]
      simp [Nat.add_comm]
    · rw [if_neg hc, List.count_cons, List.count_cons, List.count_cons, ih]
      rw [bgOfParity_ne_reset, pieceStr_ne_reset]
      simp

theorem chessifyAux_ne_nil (c : Char) (cs : List Char) (k : Nat) :
    chessifyAux (c :: cs) k ≠ [] := by
  rw [chessifyAux]
  by_cases hc : c.isDigit
  · rw [if_pos hc]
    simp
  · rw [if_neg hc]
    simp

theorem chessifyAux_getLast (cs : List Char) (k : Nat) (h : cs ≠ []) :
    (chessifyAux cs k).getLast? = some RESET_COLOR := by
  induction cs generalizing k with
  | nil => cases h rfl
  | cons c cs ih =>
    rw [chessifyAux]
    by_cases hcs : cs = []
    · subst hcs
      by_cases hc : c.isDigit
      · rw [if_pos hc]
        rw [show chessifyAux [] (k + digitVal c) = [] from rfl, List.append_nil]
        exact List.getLast?_concat _
      · rw [if_neg hc]
        rfl
    · have hrest : chessifyAux cs (k + digitVal c) ≠ [] := by
        rcases cs with _ | ⟨c2, cs2⟩
        · cases hcs rfl
        · exact chessifyAux_ne_nil c2 cs2 _
      have hrest1 : chessifyAux cs (k + 1) ≠ [] := by
        rcases cs with _ | ⟨c2, cs2⟩
        · cases hcs rfl
        · exact chessifyAux_ne_nil c2 cs2 _
      by_cases hc : c.isDigit
      · rw [if_pos hc]
        rw [List.getLast?_append_of_ne_nil _ (by simp [hrest])]
        exact ih _ hcs
      · rw [if_neg hc]
        rw [show bgOfParity (k + 1) :: pieceStr c :: RESET_COLOR :: chessifyAux cs (k + 1)
            = [bgOfParity (k + 1), pieceStr c, RESET_COLOR] ++ chessifyAux cs (k + 1) from rfl]
        rw [List.getLast?_append_of_ne_nil _ hrest1]
        exact ih _ hcs

theorem renderLines_length (bl : List String) (flip : Bool) :
    (renderLines bl flip).length = bl.length + 2 := by
  cases flip <;> simp [renderLines, List.enum_length]

theorem renderLines_head_flipped (bl : List String) :
    (renderLines bl true).head? = some "   h  g  f  e  d  c  b  a" := rfl

theorem renderLines_head_unflipped (bl : List String) :
    (renderLines bl false).head? = some "   a  b  c  d  e  f  g  h" := rfl

theorem renderLines_getLast_flipped (bl : List String) :
    (renderLines bl true).getLast? = some "   h  g  f  e  d  c  b  a" := by
  show (("   h  g  f  e  d  c  b  a"
      :: (bl.reverse.enum.map (bodyRowP true)))
      ++ ["   h  g  f  e  d  c  b  a"]).getLast? = _
  exact List.getLast?_concat _

theorem renderLines_getLast_unflipped (bl : List String) :
    (renderLines bl false).getLast? = some "   a  b  c  d  e  f  g  h" := by
  show (("   a  b  c  d  e  f  g  h"
      :: (bl.enum.map (bodyRowP false)))
      ++ ["   a  b  c  d  e  f  g  h"]).getLast? = _
  exact List.getLast?_concat _

theorem renderLines_body_flipped (bl : List String) (i : Nat) (h : i < bl.length) :
    (renderLines bl true)[i + 1]?
      = (bl.reverse[i]?).map (fun line => bodyRowP true (i, line)) := by
  have hlen : i < (bl.reverse.enum.map (bodyRowP true)).length := by
    simpa [List.enum_length] using h
  show (("   h  g  f  e  d  c  b  a"
      :: (bl.reverse.enum.map (bodyRowP true)))
      ++ ["   h  g  f  e  d  c  b  a"])[i + 1]? = _
  rw [List.cons_append, List.getElem?_cons_succ, List.getElem?_append_left hlen,
    List.getElem?_map, List.getElem?_enum]
  cases hx : bl.reverse[i]? <;> simp [hx]

theorem renderLines_body_unflipped (bl : List String) (i : Nat) (h : i < bl.length) :
    (renderLines bl false)[i + 1]?
      = (bl[i]?).map (fun line => bodyRowP false (i, line)) := by
  have hlen : i < (bl.enum.map (bodyRowP false)).length := by
    simpa [List.enum_length] using h
  show (("   a  b  c  d  e  f  g  h"
      :: (bl.enum.map (bodyRowP false)))
      ++ ["   a  b  c  d  e  f  g  h"])[i + 1]? = _
  rw [List.cons_append, List.getElem?_cons_succ, List.getElem?_append_left hlen,
    List.getElem?_map, List.getElem?_enum]
  cases hx : bl[i]? <;> simp [hx]

theorem startOfEven (m : Nat) :
    (if ((m % 2 == 0) = true) then (0 : Nat) else 1) = m % 2 := by
  rcases Nat.mod_two_eq_zero_or_one m with h | h <;> rw [h] <;> rfl

theorem rowBg_false_eq (line : String) (even : Bool) :
    rowBg line even false
      = (List.range (rankWidth line.toList)).map
          (fun j => bgOfParity ((if even then (0 : Nat) else 1) + j + 1)) := by
  show (chessifyAux line.toList (if even then 0 else 1)).filter isBgChunk = _
  rw [chessifyAux_filter_bg, squareColors_eq]

theorem rowBg_true_eq (line : String) (even : Bool) :
    rowBg line even true
      = (List.range (rankWidth line.toList.reverse)).map
          (fun j => bgOfParity ((if even then (0 : Nat) else 1) + j + 1)) := by
  show (chessifyAux line.toList.reverse (if even then 0 else 1)).filter isBgChunk = _
  rw [chessifyAux_filter_bg, squareColors_eq]

/-! ### Claims -/

/-- C2: for every well-formed board (8 rank tokens, each decoding to 8
squares) and every absolute square position (row `r` from the top of the
unflipped display, file `f`), the background colour of that square is the same
whether the board is rendered with `flip = false` (where it sits at display
row `r`, column `f`) or with `flip = true` (where it sits at display row
`7 - r`, column `7 - f`); flipping changes only the square's screen position,
never its shade. -/
theorem C2_shade_flip_invariant (lines : List String)
    (h8 : lines.length = 8)
    (hw : ∀ l ∈ lines, rankWidth l.toList = 8)
    (r f : Nat) (hr : r < 8) (hf : f < 8) :
    (rowBg (lines.getD r "") (r % 2 == 0) false)[f]?
      = (rowBg (lines.reverse.getD (7 - r) "") ((7 - r) % 2 == 0) true)[7 - f]? := by
  have hr8 : r < lines.length := by omega
  have hmem : lines.getD r "" ∈ lines := by
    rw [List.getD_eq_getElem?_getD, List.getElem?_eq_getElem hr8]
    exact List.getElem_mem hr8
  have hwr : rankWidth (lines.getD r "").toList = 8 := hw _ hmem
  have hrev : lines.reverse.getD (7 - r) "" = lines.getD r "" := by
    rw [List.getD_eq_getElem?_getD, List.getD_eq_getElem?_getD]
    rw [List.getElem?_reverse (by omega)]
    rw [show lines.length - 1 - (7 - r) = r from by omega]
  rw [hrev, rowBg_false_eq, rowBg_true_eq, rankWidth_reverse, hwr]
  rw [List.getElem?_map, List.getElem?_map, List.getElem?_range hf,
    List.getElem?_range (show 7 - f < 8 from by omega)]
  rw [Option.map_some', Option.map_some']
  refine congrArg some ?_
  rw [startOfEven r, startOfEven (7 - r)]
  exact bgOfParity_congr (by omega)

/-- Witness for C2 at the standard starting board, square (0, 0). -/
theorem C2_shade_flip_invariant_witness :
    (rowBg (stdBoard.getD 0 "") (0 % 2 == 0) false)[0]?
      = (rowBg (stdBoard.reverse.getD (7 - 0) "") ((7 - 0) % 2 == 0) true)[7 - 0]? :=
  C2_shade_flip_invariant stdBoard rfl (by decide) 0 0 (by decide) (by decide)

/-- C3: the program takes its `NoFenFound` failure path (error message, usage
text, exit 1, no board printed) iff the input contains no substring matching
the piece-placement regex; in particular it fails on empty input and on the
Scenario 5 input whose only candidate placement contains the rank token `9`,
which the alphabet `[rnbqkpRNBQKP1-8]` excludes. -/
theorem C3_reject_iff_no_match :
    (∀ s : String, programRejects s = true ↔ fenMatch s = false) ∧
    programRejects "" = true ∧
    isFenChar '9' = false ∧
    programRejects nineInput = true := by
  refine ⟨fun s => ?_, by decide, by decide, by decide⟩
  unfold programRejects
  cases h : s.toList with
  | nil =>
    have hm : fenMatch s = false := by
      unfold fenMatch
      rw [h]
      rfl
    simp [h, hm]
  | cons c cs =>
    simp [h]

/-- C4: each FEN digit `d` expands to exactly `d` empty cells, each piece
letter to exactly one occupied (non-blank) cell, and every well-formed rank
token (FEN alphabet, widths summing to 8) decodes to exactly 8 squares. -/
theorem C4_rank_decode_sum :
    (∀ c, c ∈ fenDigits → squaresOfChar c = List.replicate (digitVal c) "   ") ∧
    (∀ c, c ∈ pieceLetters →
      squaresOfChar c = [pieceStr c] ∧ pieceStr c ≠ "   " ∧ pieceStr c ≠ " ") ∧
    (∀ cs : List Char, (∀ c ∈ cs, isFenChar c = true) → rankWidth cs = 8 →
      (decodeRank cs).length = 8) := by
  refine ⟨?_, ?_, ?_⟩
  · intro c hc
    fin_cases hc <;> decide
  · intro c hc
    fin_cases hc <;> refine ⟨rfl, by decide, by decide⟩
  · intro cs _ hw
    rw [decodeRank_length, hw]

/-- Witness for C4: the digit `3`, the letter `p`, and the well-formed rank
token `p3P2n`. -/
theorem C4_rank_decode_sum_witness :
    squaresOfChar '3' = List.replicate (digitVal '3') "   " ∧
    squaresOfChar 'p' = [pieceStr 'p'] ∧ pieceStr 'p' ≠ "   " ∧ pieceStr 'p' ≠ " " ∧
    (decodeRank ("p3P2n".toList)).length = 8 := by
  refine ⟨C4_rank_decode_sum.1 '3' (by decide), ?_⟩
  have h := C4_rank_decode_sum.2.1 'p' (by decide)
  exact ⟨h.1, h.2.1, h.2.2,
    C4_rank_decode_sum.2.2 ("p3P2n".toList) (by decide) (by decide)⟩

/-- C5 counterexample: on input `rnbqkbnr/...` with `flip = false`, the first
square of the top body row (file a, rank 8) is rendered on the LIGHT
background, not the dark one: the claim's "alternating shades starting dark at
file a" fails at the very first square. -/
theorem C5_counterexample :
    (rowBg "rnbqkbnr" (0 % 2 == 0) false).head? = some BACKGROUND_LIGHT ∧
    BACKGROUND_LIGHT ≠ BACKGROUND_DARK := by
  refine ⟨?_, by decide⟩
  rfl

/-- C5 (amended): scenario 1 with `flip = false` — exactly 8 body rows; the
top row is the Black back rank `r n b q k b n r` (black-foreground glyphs) on
alternating shades starting LIGHT at file a; rank labels run 8 down to 1 on
both sides; header and footer read `a b c d e f g h`. -/
theorem C5_unflipped_layout :
    split_fen stdFen = stdBoard ∧
    (renderLines (split_fen stdFen) false).length = 10 ∧
    (renderLines (split_fen stdFen) false).head? = some "   a  b  c  d  e  f  g  h" ∧
    (renderLines (split_fen stdFen) false).getLast? = some "   a  b  c  d  e  f  g  h" ∧
    (∀ i, i < 8 → (renderLines (split_fen stdFen) false)[i + 1]?
        = some (bodyRow (8 - i) (stdBoard.getD i "") (i % 2 == 0) false)) ∧
    rowBg "rnbqkbnr" (0 % 2 == 0) false
      = [BACKGROUND_LIGHT, BACKGROUND_DARK, BACKGROUND_LIGHT, BACKGROUND_DARK,
         BACKGROUND_LIGHT, BACKGROUND_DARK, BACKGROUND_LIGHT, BACKGROUND_DARK] ∧
    (chessifyAux ("rnbqkbnr".toList) 0).filter isContentChunk
      = ["\x1b[38;5;0m ♜ ", "\x1b[38;5;0m ♞ ", "\x1b[38;5;0m ♝ ", "\x1b[38;5;0m ♛ ",
         "\x1b[38;5;0m ♚ ", "\x1b[38;5;0m ♝ ", "\x1b[38;5;0m ♞ ", "\x1b[38;5;0m ♜ "] := by
  refine ⟨by decide, by decide, rfl, renderLines_getLast_unflipped _, ?_, by decide, by decide⟩
  intro i hi
  have hl : (split_fen stdFen).length = 8 := by decide
  rw [renderLines_body_unflipped _ i (by omega)]
  rw [show split_fen stdFen = stdBoard from by decide]
  rw [List.getElem?_eq_getElem (show i < stdBoard.length from by simp [stdBoard]; omega)]
  rw [Option.map_some']
  rw [List.getD_eq_getElem?_getD,
    List.getElem?_eq_getElem (show i < stdBoard.length from by simp [stdBoard]; omega)]
  rfl

/-- Witness for C5's amended layout theorem at display row 0. -/
theorem C5_unflipped_layout_witness :
    (renderLines (split_fen stdFen) false)[0 + 1]?
      = some (bodyRow (8 - 0) (stdBoard.getD 0 "") (0 % 2 == 0) false) :=
  C5_unflipped_layout.2.2.2.2.1 0 (by decide)

/-- C6: for every board of 8 rank tokens, rendering with `flip = true`
reverses the layout: the header and footer read `h g f e d c b a`, the body
row at 0-based display position `i` carries side label `i + 1` and shows rank
token `7 - i` (so the row order is rank 1 up to rank 8), and the squares of
each row appear in reversed (h-to-a) order: the content cells of the reversed
token are exactly the reverse of the token's decoded cell sequence. -/
theorem C6_flip_layout (bl : List String) (h : bl.length = 8) :
    (renderLines bl true).head? = some "   h  g  f  e  d  c  b  a" ∧
    (renderLines bl true).getLast? = some "   h  g  f  e  d  c  b  a" ∧
    (∀ i, i < 8 → (renderLines bl true)[i + 1]?
        = some (bodyRow (i + 1) (bl.getD (7 - i) "") (i % 2 == 0) true)) ∧
    (∀ line : String, ∀ k : Nat,
      (chessifyAux line.toList.reverse k).filter isContentChunk
        = (decodeRank line.toList).reverse) := by
  refine ⟨renderLines_head_flipped bl, renderLines_getLast_flipped bl, ?_, ?_⟩
  · intro i hi
    rw [renderLines_body_flipped bl i (by omega)]
    have h7 : 7 - i < bl.length := by omega
    rw [List.getElem?_reverse (by omega)]
    rw [show bl.length - 1 - i = 7 - i from by omega]
    rw [List.getElem?_eq_getElem h7]
    rw [Option.map_some']
    rw [List.getD_eq_getElem?_getD, List.getElem?_eq_getElem h7]
    rfl
  · intro line k
    rw [chessifyAux_filter_content, decodeRank_reverse]

/-- Witness for C6 at the standard starting board, display row 0. -/
theorem C6_flip_layout_witness :
    (renderLines stdBoard true)[0 + 1]?
      = some (bodyRow (0 + 1) (stdBoard.getD (7 - 0) "") (0 % 2 == 0) true) :=
  (C6_flip_layout stdBoard rfl).2.2.1 0 (by decide)

/-- C7: the 12 piece letters map to pairwise distinct, non-blank rendered
cells (foreground colour code plus glyph), and each digit `1`-`8` maps to that
many blank cells. -/
theorem C7_glyph_completeness :
    (pieceLetters.map pieceStr).Nodup ∧
    (∀ c, c ∈ pieceLetters → pieceStr c ≠ " " ∧ pieceStr c ≠ "   ") ∧
    (∀ c, c ∈ fenDigits →
      (chessifyAux [c] 0).filter isContentChunk = List.replicate (digitVal c) "   ") := by
  refine ⟨by decide, ?_, ?_⟩
  · intro c hc
    fin_cases hc <;> exact ⟨by decide, by decide⟩
  · intro c hc
    rw [chessifyAux_filter_content]
    fin_cases hc <;> decide

/-- Witness for C7 at the letter `q` and the digit `5`. -/
theorem C7_glyph_completeness_witness :
    (pieceStr 'q' ≠ " " ∧ pieceStr 'q' ≠ "   ") ∧
    (chessifyAux ['5'] 0).filter isContentChunk = List.replicate (digitVal '5') "   " :=
  ⟨C7_glyph_completeness.2.1 'q' (by decide),
   C7_glyph_completeness.2.2 '5' (by decide)⟩

/-- C8: the decoder is NOT total, contrary to the claim. On the input
`٣ 8/8/8/8/8/8/8/8` validation succeeds, and `split_fen` feeds the rank token
`٣` (U+0663 — outside the piece-letter and digit alphabet) to `chessify`,
where `is_numeric` is true but `to_digit(10)` is `None`, so the `unwrap`
panics: the decoder aborts instead of producing one blank cell, against the
code's own comment "Safe to unwrap because we know the character is numeric".
The ASCII out-of-alphabet characters `0` and `9` break the claim's
one-blank-cell rule without aborting: they take the digit branch and yield
zero and nine cells. -/
theorem C8_decoder_abort :
    fenMatch numericInput = true ∧
    split_fen numericInput = ["٣"] ∧
    isFenChar '٣' = false ∧ ('٣' ∉ pieceLetters) ∧
    is_numeric '٣' = true ∧ to_digit10 '٣' = none ∧
    chessifyAuxChecked ("٣".toList) 0 = none ∧
    isFenChar '0' = false ∧
    chessifyAuxChecked ['0'] 0 = some (chessifyAux ['0'] 0) ∧
    (chessifyAux ['0'] 0).filter isContentChunk = [] ∧
    chessifyAuxChecked ['9'] 0 = some (chessifyAux ['9'] 0) ∧
    (chessifyAux ['9'] 0).filter isContentChunk = List.replicate 9 "   " := by
  decide

/-- C9 counterexample: for the rank token `2` the renderer emits two square
units but only ONE style reset, at the very end: the first empty square's
cell is followed by the next square's background code, not by a reset — so
not every styled square unit ends with a style-reset sequence. -/
theorem C9_counterexample :
    chessifyAux ['2'] 0
      = [BACKGROUND_LIGHT, "   ", BACKGROUND_DARK, "   ", RESET_COLOR] ∧
    (chessifyAux ['2'] 0).count RESET_COLOR = 1 ∧
    BACKGROUND_DARK ≠ RESET_COLOR := by
  decide

/-- C9 (amended): the renderer emits exactly one style reset per input
character, placed after all cells produced for that character — a piece cell
is immediately followed by its reset, a digit's whole run of empty cells
shares one trailing reset — and every nonempty rendered row ends with a
reset, so styling never extends past the row into the line terminator. -/
theorem C9_reset_per_character :
    (∀ c : Char, ∀ cs : List Char, ∀ k : Nat, c.isDigit = false →
      chessifyAux (c :: cs) k
        = [bgOfParity (k + 1), pieceStr c, RESET_COLOR] ++ chessifyAux cs (k + 1)) ∧
    (∀ c : Char, ∀ cs : List Char, ∀ k : Nat, c.isDigit = true →
      chessifyAux (c :: cs) k
        = emptyChunks (digitVal c) k ++ [RESET_COLOR] ++ chessifyAux cs (k + digitVal c)) ∧
    (∀ cs : List Char, ∀ k : Nat, (chessifyAux cs k).count RESET_COLOR = cs.length) ∧
    (∀ cs : List Char, ∀ k : Nat, cs ≠ [] →
      (chessifyAux cs k).getLast? = some RESET_COLOR) := by
  refine ⟨?_, ?_, chessifyAux_count_reset, chessifyAux_getLast⟩
  · intro c cs k hc
    rw [chessifyAux, if_neg (by simp [hc])]
    rfl
  · intro c cs k hc
    rw [chessifyAux, if_pos hc]

/-- Witness for C9's amended theorem: a piece character's unit ends with the
reset, and a full rank row's chunk stream ends with the reset. -/
theorem C9_reset_per_character_witness :
    chessifyAux ['r'] 0 = [bgOfParity 1, pieceStr 'r', RESET_COLOR] ++ chessifyAux [] 1 ∧
    (chessifyAux ("rnbqkbnr".toList) 0).getLast? = some RESET_COLOR :=
  ⟨C9_reset_per_character.1 'r' [] 0 (by decide),
   C9_reset_per_character.2.2.2 ("rnbqkbnr".toList) 0 (by decide)⟩

/-- C1: evaluation of the pipeline at the Scenario 3 input. The regex does
match (validation passes) and the active colour resolves to `White`, but
`split_fen` builds the board from the FIRST whitespace-separated token —
`garbage` — not from the regex match: the rendered board is a single body row
decoded from `garbage` (3 output lines in all), not the 8-rank board of the
matched placement. -/
theorem C1_first_match_extraction :
    fenMatch garbageInput = true ∧
    activeColor garbageInput = "White" ∧
    split_fen garbageInput = ["garbage"] ∧
    split_fen garbageInput ≠ stdBoard ∧
    (renderLines (split_fen garbageInput) false).length = 3 ∧
    split_fen stdFen = stdBoard := by
  refine ⟨by decide, by decide, by decide, by decide, ?_, by decide⟩
  rw [renderLines_length]
  decide

end Fencat
